import Mathlib

/-!
Verification of the OASK server core (request admission, worker lifecycle,
context-budget management) against its natural-language specification.

The embedding below is a shallow model of `src/server/server.py` and
`src/server/unified_model_runner.py`:

* Python strings are modelled as `List Char` where character-level behaviour
  matters, and as `String` where they are only opaque outcome labels.
* A conversation message (a Python dict with a `role` and a `content` list)
  is modelled as a `Message` record; the `content` field abstracts the
  ordered content-part payload as an opaque value with decidable equality,
  which is all the trimming and counting code observes about it.
* The engine tokenizer (`tokenizer.apply_chat_template` based counting) is an
  external collaborator; it is modelled as an arbitrary total function
  `tc : List Message → Nat` giving the ground-truth token total of a
  conversation, exactly the quantity `count_conversation_tokens` returns in
  the `total` field.
* Stateful endpoint code is modelled as explicit state passing over small
  scenario records that enumerate the outcomes of the external events
  (process spawn, worker exit, file deletion).
-/

/-- A conversation message: `role` is the Python dict's `"role"` field
(`"system"`, `"user"` or `"assistant"`); `content` abstracts the ordered
content-part payload. Equality of `Message` models Python dict equality,
which is what `list.index` and the trim reordering use. -/
structure Message where
  role : String
  content : String
deriving DecidableEq, Repr

/-- Gemma 3n's maximum context window (`TokenManager.MAX_CONTEXT_TOKENS`). -/
def MAX_CONTEXT_TOKENS : Nat := 32000

/-- Reserve for special tokens and padding (`TokenManager.SAFETY_BUFFER`). -/
def SAFETY_BUFFER : Nat := 100

/-- Usable context (`TokenManager.EFFECTIVE_CONTEXT = 32000 - 100 = 31900`). -/
def EFFECTIVE_CONTEXT : Nat := MAX_CONTEXT_TOKENS - SAFETY_BUFFER

/-! ## Unicode sanitisation (`sanitize_unicode_text`, unified_model_runner.py 191-228) -/

/-- The safe code-point test from `sanitize_unicode_text`: basic printable
ASCII 32-126, Latin-1 supplement 160-255, or tab/newline/carriage return. -/
def safe_code_point (cp : Nat) : Bool :=
  (32 ≤ cp && cp ≤ 126) || (160 ≤ cp && cp ≤ 255) || (cp == 9 || cp == 10 || cp == 13)

/-- Shallow embedding of `sanitize_unicode_text`: empty text maps to `""`;
otherwise every character is kept if its code point is safe and replaced by
a space otherwise. -/
def sanitize_unicode_text (text : List Char) : List Char :=
  if text = [] then []
  else text.map (fun ch => if safe_code_point ch.toNat then ch else ' ')

/-! ## The `/stop` endpoint (`stop_processing_request`, server.py 350-369) -/

/-- The scheduler's view of the current worker subprocess: `poll` is `none`
while the process is still running, and `some code` once it has exited
(mirroring `subprocess.Popen.poll`). -/
structure WorkerProc where
  poll : Option Int
deriving DecidableEq, Repr

/-- The acknowledgement string the `/stop` endpoint always returns. -/
def STOP_ACK : String := "Processing stop requested and process terminated"

/-- Shallow embedding of `stop_processing_request`: under the processing
lock, if a current process exists and is still running it is terminated
(gracefully, then forcibly) and the handle is cleared; otherwise the state
is left untouched. The acknowledgement is returned in every case. -/
def stop_processing_request (current : Option WorkerProc) : Option WorkerProc × String :=
  match current with
  | some p => if p.poll = none then (none, STOP_ACK) else (some p, STOP_ACK)
  | none => (none, STOP_ACK)

/-! ## Token manager (`TokenManager`, unified_model_runner.py 905-1095) -/

/-- Last message with role `"system"`, mirroring the overwrite-on-iteration
loop of `_trim_conversation` (lines 1046-1049). -/
def find_system_msg (conversation : List Message) : Option Message :=
  conversation.foldl (fun acc m => if m.role = "system" then some m else acc) none

/-- The user messages of a conversation in order, as accumulated by the
partition loop of `_trim_conversation` (lines 1050-1051). -/
def user_messages (conversation : List Message) : List Message :=
  conversation.filter (fun m => m.role == "user")

/-- The assistant messages of a conversation in order, as accumulated by the
partition loop of `_trim_conversation` (lines 1052-1053). -/
def assistant_messages (conversation : List Message) : List Message :=
  conversation.filter (fun m => m.role == "assistant")

/-- The greedy admission loop of `_trim_conversation` (lines 1073-1082):
for each candidate in order, tentatively append it, measure the resulting
total, keep it if the total fits the target, and stop permanently (`break`)
at the first candidate that does not fit. -/
def admit_messages (tc : List Message → Nat) (target : Int) :
    List Message → List Message → List Message
  | acc, [] => acc
  | acc, m :: rest =>
    if (tc (acc ++ [m]) : Int) ≤ target then admit_messages tc target (acc ++ [m]) rest
    else acc

/-- Shallow embedding of `TokenManager._trim_conversation` (lines 1037-1095).
The admitted messages are re-ordered by `sorted(key=conversation.index)`;
Python's sort is stable and `list.index` returns the first occurrence, which
`List.insertionSort` over the non-strict index order reproduces exactly. -/
def trim_conversation (tc : List Message → Nat) (conversation : List Message)
    (min_output_tokens : Int) : List Message :=
  let target_input_tokens : Int := (EFFECTIVE_CONTEXT : Int) - min_output_tokens
  let system_msg := find_system_msg conversation
  let users := user_messages conversation
  let assistants := assistant_messages conversation
  let base := (match system_msg with | some s => [s] | none => []) ++
    (match users.getLast? with | some u => [u] | none => [])
  let remaining := users.dropLast.reverse ++ assistants.reverse
  let trimmed := admit_messages tc target_input_tokens base remaining
  match system_msg with
  | some s =>
    s :: List.insertionSort
      (fun a b => List.indexOf a conversation ≤ List.indexOf b conversation) trimmed.tail
  | none =>
    List.insertionSort
      (fun a b => List.indexOf a conversation ≤ List.indexOf b conversation) trimmed

/-- Rendering of the specification's description of the trim policy, for
comparison with `trim_conversation`: keep the system message (if present)
and the most recent user message, re-admit the remaining messages
most-recent-first (remaining user messages first, then assistant messages)
with the same greedy running-total cutoff, and return the admitted messages
restored to chronological (original conversation) order with the system
message pinned first. -/
def trim_conversation_claim (tc : List Message → Nat) (conversation : List Message)
    (min_output_tokens : Int) : List Message :=
  let target_input_tokens : Int := (EFFECTIVE_CONTEXT : Int) - min_output_tokens
  let system_msg := find_system_msg conversation
  let users := user_messages conversation
  let assistants := assistant_messages conversation
  let base := (match system_msg with | some s => [s] | none => []) ++
    (match users.getLast? with | some u => [u] | none => [])
  let remaining := users.dropLast.reverse ++ assistants.reverse
  let trimmed := admit_messages tc target_input_tokens base remaining
  match system_msg with
  | some s => s :: conversation.filter (fun m => decide (m ∈ trimmed.tail))
  | none => conversation.filter (fun m => decide (m ∈ trimmed))

/-- Shallow embedding of `TokenManager.optimize_for_context` (lines
1012-1035): grant the desired output budget when it fits, trim and floor
the grant at 512 when the input overflows the effective context, and floor
the remaining budget at 512 otherwise. -/
def optimize_for_context (tc : List Message → Nat) (conversation : List Message)
    (target_output_tokens : Int) : List Message × Int :=
  let current_tokens : Int := (tc conversation : Int)
  let available_for_output : Int := (EFFECTIVE_CONTEXT : Int) - current_tokens
  if target_output_tokens ≤ available_for_output then
    (conversation, min target_output_tokens available_for_output)
  else if (EFFECTIVE_CONTEXT : Int) ≤ current_tokens then
    let optimized := trim_conversation tc conversation target_output_tokens
    (optimized, max 512 ((EFFECTIVE_CONTEXT : Int) - (tc optimized : Int)))
  else
    (conversation, max 512 available_for_output)

/-! ## Theorems -/

/-- C10: for every input string, `sanitize_unicode_text` returns a string of
exactly the same length in which each character is kept when its code point
lies in the safe set 9, 10, 13, 32-126, 160-255 and is replaced by a space
otherwise; consequently every character of the output (and hence of every
generated reply, which is produced by `sanitize_unicode_text` as the final
step of `_generate_response`) lies in the safe set. -/
theorem sanitize_unicode_text_safe (text : List Char) :
    (sanitize_unicode_text text).length = text.length
    ∧ (∀ i (h : i < text.length) (h2 : i < (sanitize_unicode_text text).length),
        (sanitize_unicode_text text).get ⟨i, h2⟩ =
          (if safe_code_point (text.get ⟨i, h⟩).toNat then text.get ⟨i, h⟩ else ' '))
    ∧ (∀ ch ∈ sanitize_unicode_text text, safe_code_point ch.toNat = true) := by
  by_cases hempty : text = []
  · subst hempty
    refine ⟨rfl, ?_, ?_⟩
    · intro i h
      exact absurd h (Nat.not_lt_zero i)
    · intro ch hch
      simp [sanitize_unicode_text] at hch
  · have hdef : sanitize_unicode_text text =
        text.map (fun ch => if safe_code_point ch.toNat then ch else ' ') := by
      simp [sanitize_unicode_text, hempty]
    refine ⟨by simp [hdef], ?_, ?_⟩
    · intro i h h2
      simp [hdef, List.get_eq_getElem]
    · intro ch hch
      rw [hdef] at hch
      rcases List.mem_map.1 hch with ⟨a, _, rfl⟩
      by_cases hs : safe_code_point a.toNat
      · simp [hs]
      · simp [hs]
        decide

/-- Witness instantiating `sanitize_unicode_text_safe` on a concrete string
containing an unsafe character. -/
theorem sanitize_unicode_text_safe_witness :
    (sanitize_unicode_text ['a', 'λ']).length = 2 := by
  have h := (sanitize_unicode_text_safe ['a', 'λ']).1
  simpa using h

/-- C8: calling the `/stop` endpoint when no generation is in flight (the
current handle is absent, or present but already exited) leaves the
scheduler state unchanged and returns the normal acknowledgement, and a
second call with nothing in flight is again a no-op. -/
theorem stop_idle_noop (st : Option WorkerProc)
    (h : st = none ∨ ∃ p, st = some p ∧ p.poll ≠ none) :
    stop_processing_request st = (st, STOP_ACK)
    ∧ stop_processing_request (stop_processing_request st).1 = (st, STOP_ACK) := by
  rcases h with rfl | ⟨p, rfl, hp⟩
  · exact ⟨rfl, rfl⟩
  · simp [stop_processing_request, hp]

/-- Witness instantiating `stop_idle_noop` with no process registered. -/
theorem stop_idle_noop_witness :
    ((none : Option WorkerProc) = none ∨
      ∃ p, (none : Option WorkerProc) = some p ∧ p.poll ≠ none)
    ∧ stop_processing_request none = (none, STOP_ACK)
    ∧ stop_processing_request (stop_processing_request none).1 = (none, STOP_ACK) :=
  ⟨Or.inl rfl, stop_idle_noop none (Or.inl rfl)⟩

/-- C2: whenever the conversation's ground-truth token total is at most
`EFFECTIVE_CONTEXT - 512`, `optimize_for_context` returns the conversation
unchanged and grants exactly `min(desired, EFFECTIVE_CONTEXT - total)`
output tokens. -/
theorem optimize_budget_conservation (tc : List Message → Nat) (c : List Message)
    (desired : Int) (h : (tc c : Int) ≤ (EFFECTIVE_CONTEXT : Int) - 512) :
    optimize_for_context tc c desired =
      (c, min desired ((EFFECTIVE_CONTEXT : Int) - (tc c : Int))) := by
  have hE : (EFFECTIVE_CONTEXT : Int) = 31900 := by
    norm_num [EFFECTIVE_CONTEXT, MAX_CONTEXT_TOKENS, SAFETY_BUFFER]
  rw [hE] at h ⊢
  simp only [optimize_for_context, hE]
  split_ifs with h1 h2
  · rfl
  · omega
  · refine Prod.ext rfl ?_
    simp only
    omega

/-- Witness instantiating `optimize_budget_conservation` on the empty
conversation with a zero-count tokenizer. -/
theorem optimize_budget_conservation_witness :
    (((fun _ : List Message => 0) [] : Nat) : Int) ≤ (EFFECTIVE_CONTEXT : Int) - 512
    ∧ optimize_for_context (fun _ => 0) [] 100 =
        ([], min 100 ((EFFECTIVE_CONTEXT : Int) - ((0 : Nat) : Int))) :=
  ⟨by decide, optimize_budget_conservation (fun _ => 0) [] 100 (by decide)⟩

/-- C3 counterexample: with a small conversation and a requested output
target of 100 tokens, `optimize_for_context` grants exactly 100 output
tokens, which is below the claimed universal floor of 512. -/
theorem optimize_floor_counterexample :
    (optimize_for_context (fun _ => 0) [] 100).2 = 100
    ∧ (optimize_for_context (fun _ => 0) [] 100).2 < 512 := by
  constructor <;> decide

/-- C3 (amended): whenever the requested output-token target is at least 512
(as at every call site, which requests between 4000 and 16000), the granted
output-token count is never below 512, regardless of the conversation and of
its size after trimming. -/
theorem optimize_output_floor (tc : List Message → Nat) (c : List Message)
    (target : Int) (h : 512 ≤ target) :
    512 ≤ (optimize_for_context tc c target).2 := by
  simp only [optimize_for_context]
  split_ifs with h1 h2
  · simp only
    omega
  · simp only
    omega
  · simp only
    omega

/-- Witness instantiating `optimize_output_floor` at a concrete target. -/
theorem optimize_output_floor_witness :
    (512 : Int) ≤ 8000 ∧ 512 ≤ (optimize_for_context (fun _ => 0) [] 8000).2 :=
  ⟨by decide, optimize_output_floor (fun _ => 0) [] 8000 (by decide)⟩

/-! ## The `/ask` endpoint (server.py 375-723): worker hand-off and cleanup -/

/-- Outcomes of the external events during one `/ask` request: whether
`subprocess.Popen` succeeded, whether the worker was terminated by the
`/stop` endpoint during the wait, whether the worker wrote the output
pickle, whether the loaded result has `success = True`, and whether the
two best-effort `os.remove` calls in the `finally` block raise. -/
structure AskScenario where
  spawnOk : Bool
  stopKilledWorker : Bool
  outputWritten : Bool
  resultSuccess : Bool
  removeMsgsFails : Bool
  removeOutFails : Bool
deriving DecidableEq, Repr

/-- Existence of the two per-request hand-off files `temp_messages_{id}.pkl`
and `temp_output_{id}.pkl` (the files are scoped to the request's fresh
uuid, so only this request ever touches them). -/
structure HandoffFiles where
  messagesFile : Bool
  outputFile : Bool
deriving DecidableEq, Repr

/-- User-visible outcome of an `/ask` request: a successful reply JSON, or
an error JSON `{"error": tag}` with the given tag. -/
inductive AskOutcome where
  | reply
  | err (tag : String)
deriving DecidableEq, Repr

/-- Shallow embedding of the `/ask` endpoint's hand-off and result logic
(server.py 534-645) as a function of the request's external events.

Control flow mirrored from the source: the messages pickle is written
(543-544) before `subprocess.Popen` runs (557-560); a `Popen` failure
escapes to the outer handler (721-723), which returns a generic server
error without reaching the inner `finally`; otherwise the endpoint waits,
then inside the inner `try` either loads the result from the output pickle
(581-587, returning a generic model error when `success` is false) or
returns the generic "No output generated" error (624-625); the `finally`
block (629-641) deletes the hand-off files best-effort (an exception while
removing the messages file also skips the output-file removal) and clears
`current_process`; finally line 644 tests
`current_process and current_process.returncode < 0` to decide whether to
return "Processing was stopped" — reading the just-cleared handle. -/
def ask_request (sc : AskScenario) : AskOutcome × HandoffFiles :=
  let fs0 : HandoffFiles := ⟨true, false⟩
  if sc.spawnOk = false then
    (.err "Server error", fs0)
  else
    let _returncode : Int := if sc.stopKilledWorker then -15 else 0
    let fs1 : HandoffFiles := ⟨true, sc.outputWritten⟩
    let inner : Option AskOutcome :=
      if sc.outputWritten then
        if sc.resultSuccess then none else some (.err "Model error")
      else some (.err "No output generated")
    let fs2 : HandoffFiles :=
      if sc.removeMsgsFails then fs1
      else ⟨false, if sc.removeOutFails then fs1.outputFile else false⟩
    let current_after_finally : Option Int := none
    match inner with
    | some r => (r, fs2)
    | none =>
      match current_after_finally with
      | some rc => if rc < 0 then (.err "Processing was stopped", fs2) else (.reply, fs2)
      | none => (.reply, fs2)

/-- C1 (code bug): when the worker is killed by `/stop` before producing an
output file, the `/ask` endpoint returns the generic "No output generated"
error rather than the explicit "Processing was stopped" outcome; indeed the
"Processing was stopped" branch is unreachable for every scenario, because
the `finally` block clears `current_process` before line 644 reads it. -/
theorem ask_stop_outcome_never_returned :
    ask_request ⟨true, true, false, false, false, false⟩ =
      (.err "No output generated", ⟨false, false⟩)
    ∧ ∀ sc : AskScenario, (ask_request sc).1 ≠ .err "Processing was stopped" := by
  refine ⟨by decide, ?_⟩
  rintro ⟨a, b, c, d, e, f⟩
  cases a <;> cases b <;> cases c <;> cases d <;> cases e <;> cases f <;> decide

/-- Witness instantiating `ask_stop_outcome_never_returned` at a concrete
scenario. -/
theorem ask_stop_outcome_never_returned_witness :
    (ask_request ⟨true, true, true, true, false, false⟩).1 ≠ .err "Processing was stopped" :=
  ask_stop_outcome_never_returned.2 ⟨true, true, true, true, false, false⟩

/-- C5 counterexample: when `subprocess.Popen` itself fails, the request
returns a failure outcome but the messages pickle written just before the
spawn is left behind — the inner `finally` that deletes the hand-off files
is never entered. -/
theorem ask_spawn_failure_leaves_messages_file :
    ask_request ⟨false, false, false, false, false, false⟩ =
      (.err "Server error", ⟨true, false⟩)
    ∧ (ask_request ⟨false, false, false, false, false, false⟩).2.messagesFile = true := by
  constructor <;> decide

/-- C5 (amended): for every outcome of a request whose worker process was
actually spawned, and whose best-effort deletions do not themselves fail,
no hand-off files remain when the request returns; and a failure of either
deletion never changes the request's outcome (it is swallowed, never
escalated). -/
theorem ask_cleanup_after_spawn (sc : AskScenario) (h1 : sc.spawnOk = true)
    (h2 : sc.removeMsgsFails = false) (h3 : sc.removeOutFails = false) :
    (ask_request sc).2 = ⟨false, false⟩
    ∧ ∀ m f, (ask_request { sc with removeMsgsFails := m, removeOutFails := f }).1
        = (ask_request sc).1 := by
  revert h1 h2 h3
  rcases sc with ⟨a, b, c, d, e, f⟩
  cases a <;> cases b <;> cases c <;> cases d <;> cases e <;> cases f <;>
    intro h1 h2 h3 <;>
    first
      | exact absurd h1 (by decide)
      | exact absurd h2 (by decide)
      | exact absurd h3 (by decide)
      | exact ⟨by decide, fun m f => by cases m <;> cases f <;> decide⟩

/-- Witness instantiating `ask_cleanup_after_spawn` at a concrete
successful scenario. -/
theorem ask_cleanup_after_spawn_witness :
    (ask_request ⟨true, false, true, true, false, false⟩).2 = ⟨false, false⟩
    ∧ ∀ m f, (ask_request { AskScenario.mk true false true true false false with
        removeMsgsFails := m, removeOutFails := f }).1
      = (ask_request ⟨true, false, true, true, false, false⟩).1 :=
  ask_cleanup_after_spawn ⟨true, false, true, true, false, false⟩ rfl rfl rfl

/-! ## Template failure fallback (`_generate_response`, unified_model_runner.py 1463-1508) -/

/-- Last message with role `"user"`, mirroring the overwrite loop of the
fallback block (lines 1484-1488). -/
def find_last_user (conversation : List Message) : Option Message :=
  conversation.foldl (fun acc m => if m.role = "user" then some m else acc) none

/-- Result of the templating step: generation proceeds with the given
conversation and output budget, or a fatal tokenization error propagates. -/
inductive TemplateStep where
  | proceeded (conv : List Message) (budget : Int)
  | fatal
deriving DecidableEq, Repr

/-- Shallow embedding of the chat-template application with its failure
fallback (lines 1467-1508). The engine's `apply_chat_template` is the
external collaborator `templ` (true = succeeded). On failure, only when the
conversation has more than two messages, a minimal conversation (last
system message plus last user message) is retried and the output budget is
recomputed against it via `optimize_for_context`; otherwise the error is
re-raised. -/
def apply_template_with_retry (templ : List Message → Bool) (tc : List Message → Nat)
    (optimized : List Message) (target : Int) (actual : Int) : TemplateStep :=
  if templ optimized then .proceeded optimized actual
  else if 2 < optimized.length then
    let minimal := (match find_system_msg optimized with | some s => [s] | none => []) ++
      (match find_last_user optimized with | some u => [u] | none => [])
    if templ minimal then .proceeded minimal (optimize_for_context tc minimal target).2
    else .fatal
  else .fatal

/-- Rendering of the claim's description of the fallback: whenever the
templating call fails, retry with the minimal conversation (system message
plus latest user message only) and recompute the budget against it; if the
retry also fails, propagate a fatal error. -/
def apply_template_retry_claim (templ : List Message → Bool) (tc : List Message → Nat)
    (optimized : List Message) (target : Int) (actual : Int) : TemplateStep :=
  if templ optimized then .proceeded optimized actual
  else
    let minimal := (match find_system_msg optimized with | some s => [s] | none => []) ++
      (match find_last_user optimized with | some u => [u] | none => [])
    if templ minimal then .proceeded minimal (optimize_for_context tc minimal target).2
    else .fatal

/-- C6 counterexample: for a two-message conversation on which templating
fails but would succeed on the minimal retry conversation, the code
propagates the error immediately (the fallback is guarded by
`len(optimized_conversation) > 2`), whereas the claimed behaviour retries
and proceeds. -/
theorem template_retry_counterexample :
    apply_template_with_retry (fun l => decide (l.length = 1)) (fun l => l.length)
      [⟨"user", "p"⟩, ⟨"user", "q"⟩] 8000 8000 = .fatal
    ∧ apply_template_retry_claim (fun l => decide (l.length = 1)) (fun l => l.length)
      [⟨"user", "p"⟩, ⟨"user", "q"⟩] 8000 8000 = .proceeded [⟨"user", "q"⟩] 8000
    ∧ apply_template_with_retry (fun l => decide (l.length = 1)) (fun l => l.length)
        [⟨"user", "p"⟩, ⟨"user", "q"⟩] 8000 8000
      ≠ apply_template_retry_claim (fun l => decide (l.length = 1)) (fun l => l.length)
        [⟨"user", "p"⟩, ⟨"user", "q"⟩] 8000 8000 := by
  refine ⟨by decide, by decide, by decide⟩

/-- C6 (amended): if the templating call fails and the conversation has
more than two messages, the system retries exactly as the claim describes
(minimal system-plus-latest-user conversation, recomputed budget, fatal on
a second failure); if instead the conversation has at most two messages,
the failure propagates immediately with no retry. -/
theorem template_retry_amended (templ : List Message → Bool) (tc : List Message → Nat)
    (optimized : List Message) (target actual : Int) :
    (2 < optimized.length →
      apply_template_with_retry templ tc optimized target actual =
        apply_template_retry_claim templ tc optimized target actual)
    ∧ (optimized.length ≤ 2 → templ optimized = false →
      apply_template_with_retry templ tc optimized target actual = .fatal) := by
  constructor
  · intro h
    by_cases ht : templ optimized
    · simp [apply_template_with_retry, apply_template_retry_claim, ht]
    · simp [apply_template_with_retry, apply_template_retry_claim, ht, h]
  · intro h ht
    have h2 : ¬ 2 < optimized.length := by omega
    simp [apply_template_with_retry, ht, h2]

/-- Witness instantiating `template_retry_amended` on a concrete
three-message conversation. -/
theorem template_retry_amended_witness :
    2 < ([⟨"system", "s"⟩, ⟨"user", "p"⟩, ⟨"assistant", "r"⟩] : List Message).length
    ∧ apply_template_with_retry (fun _ => false) (fun l => l.length)
        [⟨"system", "s"⟩, ⟨"user", "p"⟩, ⟨"assistant", "r"⟩] 8000 8000 =
      apply_template_retry_claim (fun _ => false) (fun l => l.length)
        [⟨"system", "s"⟩, ⟨"user", "p"⟩, ⟨"assistant", "r"⟩] 8000 8000 :=
  ⟨by decide,
    (template_retry_amended (fun _ => false) (fun l => l.length)
      [⟨"system", "s"⟩, ⟨"user", "p"⟩, ⟨"assistant", "r"⟩] 8000 8000).1 (by decide)⟩

/-! ## Supporting lemmas for the trim-policy claim -/

/-- The greedy admission loop only ever appends: its result is the starting
list followed by a sublist of the candidate list. -/
theorem admit_messages_eq_append (tc : List Message → Nat) (t : Int) :
    ∀ (l acc : List Message), ∃ p, p.Sublist l ∧ admit_messages tc t acc l = acc ++ p := by
  intro l
  induction l with
  | nil => exact fun acc => ⟨[], List.nil_sublist _, by simp [admit_messages]⟩
  | cons m rest ih =>
    intro acc
    by_cases hcond : (tc (acc ++ [m]) : Int) ≤ t
    · obtain ⟨p, hp, he⟩ := ih (acc ++ [m])
      refine ⟨m :: p, List.Sublist.cons₂ m hp, ?_⟩
      rw [admit_messages, if_pos hcond, he, List.append_assoc]
      rfl
    · exact ⟨[], List.nil_sublist _, by rw [admit_messages, if_neg hcond, List.append_nil]⟩

/-- The overwrite fold of `find_system_msg` returns a member of the
conversation with role `"system"`. -/
theorem find_system_msg_spec (c : List Message) :
    ∀ s, find_system_msg c = some s → s ∈ c ∧ s.role = "system" := by
  suffices H : ∀ (init : Option Message) s,
      c.foldl (fun acc m => if m.role = "system" then some m else acc) init = some s →
      (s ∈ c ∧ s.role = "system") ∨ init = some s by
    intro s hs
    rcases H none s hs with h | h
    · exact h
    · exact Option.noConfusion h
  induction c with
  | nil => exact fun init s h => Or.inr h
  | cons m rest ih =>
    intro init s h
    rw [List.foldl_cons] at h
    by_cases hm : m.role = "system"
    · rw [if_pos hm] at h
      rcases ih (some m) s h with h1 | h1
      · exact Or.inl ⟨List.mem_cons_of_mem _ h1.1, h1.2⟩
      · have hms : m = s := Option.some.inj h1
        exact Or.inl ⟨hms ▸ List.mem_cons_self _ _, hms ▸ hm⟩
    · rw [if_neg hm] at h
      rcases ih init s h with h1 | h1
      · exact Or.inl ⟨List.mem_cons_of_mem _ h1.1, h1.2⟩
      · exact Or.inr h1

/-- Members of `user_messages` carry role `"user"` and belong to the
conversation. -/
theorem mem_user_messages {c : List Message} {m : Message}
    (h : m ∈ user_messages c) : m ∈ c ∧ m.role = "user" := by
  have h2 := List.mem_filter.1 h
  exact ⟨h2.1, by simpa using h2.2⟩

/-- Members of `assistant_messages` carry role `"assistant"` and belong to
the conversation. -/
theorem mem_assistant_messages {c : List Message} {m : Message}
    (h : m ∈ assistant_messages c) : m ∈ c ∧ m.role = "assistant" := by
  have h2 := List.mem_filter.1 h
  exact ⟨h2.1, by simpa using h2.2⟩

/-- In a duplicate-free list, the index of the element at a position is that
position. -/
theorem indexOf_getElem_of_nodup {c : List Message} (hc : c.Nodup) (i : Nat)
    (hi : i < c.length) : List.indexOf (c.get ⟨i, hi⟩) c = i := by
  have hmem : c.get ⟨i, hi⟩ ∈ c := List.get_mem c i hi
  have h1 : List.indexOf (c.get ⟨i, hi⟩) c < c.length := List.indexOf_lt_length.2 hmem
  have h2 : c.get ⟨List.indexOf (c.get ⟨i, hi⟩) c, h1⟩ = c.get ⟨i, hi⟩ :=
    List.indexOf_get h1
  have h3 : List.indexOf (c.get ⟨i, hi⟩) c = i := by
    have h4 := List.nodup_iff_injective_get.1 hc h2
    exact Fin.mk.inj_iff.1 h4
  exact h3

/-- A duplicate-free list is strictly increasing along its own first-index
function. -/
theorem pairwise_indexOf_lt {c : List Message} (hc : c.Nodup) :
    c.Pairwise (fun a b => List.indexOf a c < List.indexOf b c) := by
  rw [List.pairwise_iff_getElem]
  intro i j hi hj hij
  have h1 := indexOf_getElem_of_nodup hc i hi
  have h2 := indexOf_getElem_of_nodup hc j hj
  simp only [List.get_eq_getElem] at h1 h2
  rw [h1, h2]
  exact hij

/-- Stable sorting a duplicate-free selection of a duplicate-free list by
first index is the same as filtering the original list down to the
selection, i.e. restoring the selection's chronological order. -/
theorem insertionSort_indexOf_eq_filter (c A : List Message) (hc : c.Nodup)
    (hA : A.Nodup) (hsub : ∀ a ∈ A, a ∈ c) :
    List.insertionSort (fun a b => List.indexOf a c ≤ List.indexOf b c) A
      = c.filter (fun m => decide (m ∈ A)) := by
  haveI h_total : IsTotal Message (fun a b => List.indexOf a c ≤ List.indexOf b c) :=
    ⟨fun a b => Nat.le_total _ _⟩
  haveI h_trans : IsTrans Message (fun a b => List.indexOf a c ≤ List.indexOf b c) :=
    ⟨fun _ _ _ h1 h2 => Nat.le_trans h1 h2⟩
  haveI h_anti : IsAntisymm Message (fun a b => List.indexOf a c < List.indexOf b c) :=
    ⟨fun a b h1 h2 => absurd (Nat.lt_trans h1 h2) (Nat.lt_irrefl _)⟩
  have hperm1 : (List.insertionSort
      (fun a b => List.indexOf a c ≤ List.indexOf b c) A).Perm A :=
    List.perm_insertionSort _ A
  have hfilter_nodup : (c.filter (fun m => decide (m ∈ A))).Nodup := hc.filter _
  have hmemf : ∀ x, x ∈ c.filter (fun m => decide (m ∈ A)) ↔ x ∈ A := by
    intro x
    simp only [List.mem_filter, decide_eq_true_eq]
    exact ⟨fun h => h.2, fun h => ⟨hsub x h, h⟩⟩
  have hperm2 : A.Perm (c.filter (fun m => decide (m ∈ A))) :=
    (List.perm_ext_iff_of_nodup hA hfilter_nodup).2 (fun a => (hmemf a).symm)
  have hsort_le : List.Sorted (fun a b => List.indexOf a c ≤ List.indexOf b c)
      (List.insertionSort (fun a b => List.indexOf a c ≤ List.indexOf b c) A) :=
    List.sorted_insertionSort _ A
  have hnd1 : (List.insertionSort
      (fun a b => List.indexOf a c ≤ List.indexOf b c) A).Nodup :=
    hperm1.nodup_iff.2 hA
  have hmem1 : ∀ a ∈ List.insertionSort
      (fun a b => List.indexOf a c ≤ List.indexOf b c) A, a ∈ c :=
    fun a ha => hsub a (hperm1.mem_iff.1 ha)
  have hsort_lt : List.Sorted (fun a b => List.indexOf a c < List.indexOf b c)
      (List.insertionSort (fun a b => List.indexOf a c ≤ List.indexOf b c) A) := by
    have hand := List.Pairwise.and hsort_le hnd1
    refine List.Pairwise.imp_of_mem ?_ hand
    intro a b ha hb hab
    refine Nat.lt_of_le_of_ne hab.1 ?_
    intro heq
    exact hab.2 ((List.indexOf_inj (hmem1 a ha) (hmem1 b hb)).1 heq)
  have hsort_f : List.Sorted (fun a b => List.indexOf a c < List.indexOf b c)
      (c.filter (fun m => decide (m ∈ A))) :=
    List.Pairwise.sublist (List.filter_sublist c) (pairwise_indexOf_lt hc)
  exact List.eq_of_perm_of_sorted (hperm1.trans hperm2) hsort_lt hsort_f

/-- Under no duplicates, the last user message is not among the earlier
user messages. -/
theorem getLast_not_mem_dropLast {l : List Message} (hl : l.Nodup) {u : Message}
    (hu : l.getLast? = some u) : u ∉ l.dropLast := by
  have hne : l ≠ [] := by
    intro h
    rw [h] at hu
    exact Option.noConfusion hu
  have hlast : l.getLast hne = u := by
    rw [List.getLast?_eq_getLast l hne] at hu
    exact Option.some.inj hu
  have hdecomp : l.dropLast ++ [l.getLast hne] = l := List.dropLast_append_getLast hne
  rw [← hdecomp] at hl
  have hdisj := (List.nodup_append.1 hl).2.2
  intro hmem
  exact hdisj hmem (hlast ▸ List.mem_cons_self u [])

/-- The candidate list re-admitted by the trim loop is duplicate-free and
drawn from the conversation, for a duplicate-free conversation. -/
theorem admitted_sublist_facts {c : List Message} (hc : c.Nodup) {p : List Message}
    (hpsub : p.Sublist
      ((user_messages c).dropLast.reverse ++ (assistant_messages c).reverse)) :
    p.Nodup ∧ ∀ a ∈ p, a ∈ c := by
  have hUsersNodup : (user_messages c).Nodup := hc.filter _
  have hAssistNodup : (assistant_messages c).Nodup := hc.filter _
  have hRemNodup :
      ((user_messages c).dropLast.reverse ++ (assistant_messages c).reverse).Nodup := by
    rw [List.nodup_append]
    refine ⟨List.nodup_reverse.2 ((List.dropLast_sublist _).nodup hUsersNodup),
      List.nodup_reverse.2 hAssistNodup, ?_⟩
    intro a ha hb
    have h1 := (mem_user_messages (List.mem_of_mem_dropLast (List.mem_reverse.1 ha))).2
    have h2 := (mem_assistant_messages (List.mem_reverse.1 hb)).2
    rw [h1] at h2
    exact absurd h2 (by decide)
  refine ⟨hpsub.nodup hRemNodup, ?_⟩
  intro a ha
  rcases List.mem_append.1 (hpsub.subset ha) with h | h
  · exact (mem_user_messages (List.mem_of_mem_dropLast (List.mem_reverse.1 h))).1
  · exact (mem_assistant_messages (List.mem_reverse.1 h)).1

/-- Prepending the anchored last user message to the admitted candidates
keeps the collection duplicate-free and inside the conversation. -/
theorem admitted_cons_facts {c : List Message} (hc : c.Nodup) {p : List Message}
    {u : Message}
    (hpsub : p.Sublist
      ((user_messages c).dropLast.reverse ++ (assistant_messages c).reverse))
    (hu : (user_messages c).getLast? = some u) :
    (u :: p).Nodup ∧ ∀ a ∈ u :: p, a ∈ c := by
  obtain ⟨hpnd, hpsubc⟩ := admitted_sublist_facts hc hpsub
  have hUsersNodup : (user_messages c).Nodup := hc.filter _
  have hune : user_messages c ≠ [] := by
    intro h
    rw [h] at hu
    exact Option.noConfusion hu
  have humem : u ∈ user_messages c := by
    rw [List.getLast?_eq_getLast _ hune] at hu
    exact (Option.some.inj hu) ▸ List.getLast_mem hune
  have hurole : u.role = "user" := (mem_user_messages humem).2
  have hnotp : u ∉ p := by
    intro hup
    rcases List.mem_append.1 (hpsub.subset hup) with h | h
    · exact getLast_not_mem_dropLast hUsersNodup hu (List.mem_reverse.1 h)
    · have h2 := (mem_assistant_messages (List.mem_reverse.1 h)).2
      rw [hurole] at h2
      exact absurd h2 (by decide)
  refine ⟨List.nodup_cons.2 ⟨hnotp, hpnd⟩, ?_⟩
  intro a ha
  rcases List.mem_cons.1 ha with rfl | h
  · exact (mem_user_messages humem).1
  · exact hpsubc a h

/-- C4 (amended): for every conversation without duplicate messages, the
trim procedure behaves exactly as the claim describes — it keeps the system
message (if present) and the single most recent user message, re-admits the
remaining messages most-recent-first (remaining user messages first, then
assistant messages), measuring the running total after each tentative
addition and stopping permanently at the first overflow, and returns the
admitted messages restored to chronological order with the system message
pinned first. -/
theorem trim_conversation_matches_claim (tc : List Message → Nat) (c : List Message)
    (k : Int) (hc : c.Nodup) :
    trim_conversation tc c k = trim_conversation_claim tc c k := by
  simp only [trim_conversation, trim_conversation_claim]
  cases hsys : find_system_msg c with
  | none =>
    cases hlast : (user_messages c).getLast? with
    | none =>
      obtain ⟨p, hpsub, hpe⟩ := admit_messages_eq_append tc ((EFFECTIVE_CONTEXT : Int) - k)
        ((user_messages c).dropLast.reverse ++ (assistant_messages c).reverse)
        ([] ++ [])
      simp only [List.nil_append] at hpe ⊢
      simp only [hpe]
      obtain ⟨hnd, hsub⟩ := admitted_sublist_facts hc hpsub
      exact insertionSort_indexOf_eq_filter c p hc hnd hsub
    | some u =>
      obtain ⟨p, hpsub, hpe⟩ := admit_messages_eq_append tc ((EFFECTIVE_CONTEXT : Int) - k)
        ((user_messages c).dropLast.reverse ++ (assistant_messages c).reverse)
        ([] ++ [u])
      simp only [List.nil_append] at hpe ⊢
      simp only [hpe, List.cons_append, List.nil_append]
      obtain ⟨hnd, hsub⟩ := admitted_cons_facts hc hpsub hlast
      exact insertionSort_indexOf_eq_filter c (u :: p) hc hnd hsub
  | some s =>
    cases hlast : (user_messages c).getLast? with
    | none =>
      obtain ⟨p, hpsub, hpe⟩ := admit_messages_eq_append tc ((EFFECTIVE_CONTEXT : Int) - k)
        ((user_messages c).dropLast.reverse ++ (assistant_messages c).reverse)
        ([s] ++ [])
      simp only [List.append_nil] at hpe ⊢
      simp only [hpe, List.cons_append, List.nil_append, List.tail_cons]
      obtain ⟨hnd, hsub⟩ := admitted_sublist_facts hc hpsub
      exact congrArg (List.cons s) (insertionSort_indexOf_eq_filter c p hc hnd hsub)
    | some u =>
      obtain ⟨p, hpsub, hpe⟩ := admit_messages_eq_append tc ((EFFECTIVE_CONTEXT : Int) - k)
        ((user_messages c).dropLast.reverse ++ (assistant_messages c).reverse)
        ([s] ++ [u])
      simp only [List.cons_append, List.nil_append] at hpe ⊢
      simp only [hpe, List.cons_append, List.tail_cons]
      obtain ⟨hnd, hsub⟩ := admitted_cons_facts hc hpsub hlast
      exact congrArg (List.cons s) (insertionSort_indexOf_eq_filter c (u :: p) hc hnd hsub)

/-- C4 counterexample: on a conversation containing a duplicated user
message, the admitted messages are not restored to chronological order —
`sorted(key=conversation.index)` keys every duplicate by its first
occurrence, so the second `"a"` message is pulled in front of `"b"`,
whereas the chronological order of the admitted messages interleaves them
as in the original conversation. -/
theorem trim_reorder_counterexample :
    trim_conversation (fun l => l.length)
      [⟨"system", "S"⟩, ⟨"user", "a"⟩, ⟨"user", "b"⟩, ⟨"user", "a"⟩, ⟨"user", "c"⟩] 512
      = [⟨"system", "S"⟩, ⟨"user", "a"⟩, ⟨"user", "a"⟩, ⟨"user", "b"⟩, ⟨"user", "c"⟩]
    ∧ trim_conversation_claim (fun l => l.length)
      [⟨"system", "S"⟩, ⟨"user", "a"⟩, ⟨"user", "b"⟩, ⟨"user", "a"⟩, ⟨"user", "c"⟩] 512
      = [⟨"system", "S"⟩, ⟨"user", "a"⟩, ⟨"user", "b"⟩, ⟨"user", "a"⟩, ⟨"user", "c"⟩]
    ∧ trim_conversation (fun l => l.length)
        [⟨"system", "S"⟩, ⟨"user", "a"⟩, ⟨"user", "b"⟩, ⟨"user", "a"⟩, ⟨"user", "c"⟩] 512
      ≠ trim_conversation_claim (fun l => l.length)
        [⟨"system", "S"⟩, ⟨"user", "a"⟩, ⟨"user", "b"⟩, ⟨"user", "a"⟩, ⟨"user", "c"⟩] 512 := by
  refine ⟨by decide, by decide, by decide⟩

/-- Witness instantiating `trim_conversation_matches_claim` on a concrete
duplicate-free conversation. -/
theorem trim_conversation_matches_claim_witness :
    ([⟨"system", "S"⟩, ⟨"user", "a"⟩, ⟨"assistant", "r"⟩, ⟨"user", "b"⟩]
      : List Message).Nodup
    ∧ trim_conversation (fun l => l.length)
        [⟨"system", "S"⟩, ⟨"user", "a"⟩, ⟨"assistant", "r"⟩, ⟨"user", "b"⟩] 512
      = trim_conversation_claim (fun l => l.length)
        [⟨"system", "S"⟩, ⟨"user", "a"⟩, ⟨"assistant", "r"⟩, ⟨"user", "b"⟩] 512 :=
  ⟨by decide, trim_conversation_matches_claim (fun l => l.length)
    [⟨"system", "S"⟩, ⟨"user", "a"⟩, ⟨"assistant", "r"⟩, ⟨"user", "b"⟩] 512 (by decide)⟩

/-! ## System prompt truncation (`ask`, server.py 439-459) -/

/-- Whitespace test used by Python's `str.strip` (restricted to the ASCII
whitespace characters, which suffice for the properties below). -/
def is_py_space (ch : Char) : Bool :=
  ch = ' ' || ch = '\t' || ch = '\n' || ch = '\r' || ch.toNat = 11 || ch.toNat = 12

/-- Model of Python's `str.strip`: drop whitespace from both ends. -/
def py_strip (s : List Char) : List Char :=
  ((s.dropWhile is_py_space).reverse.dropWhile is_py_space).reverse

/-- Model of Python's `str.rfind`: index of the last occurrence of `ch`,
or `-1` when absent. -/
def py_rfind (ch : Char) : List Char → Int
  | [] => -1
  | x :: xs =>
    let r := py_rfind ch xs
    if 0 ≤ r then r + 1 else if x = ch then 0 else -1

/-- The default system prompt used when the caller supplies none. -/
def DEFAULT_SYSTEM_PROMPT : List Char := "You are a helpful assistant.".toList

/-- Shallow embedding of the system-prompt preparation in `ask` (server.py
439-459): substitute the default for an absent (or empty, hence falsy)
prompt; when the prompt exceeds 2000 characters, cut at 2000 and strip,
then prefer the last sentence end after position 1950, else the last word
boundary after position 1980, and finally re-cut defensively at 2000. -/
def final_system_prompt (system_prompt : Option (List Char)) : List Char :=
  let finalp := match system_prompt with
    | some s => if s = [] then DEFAULT_SYSTEM_PROMPT else s
    | none => DEFAULT_SYSTEM_PROMPT
  if 2000 < finalp.length then
    let truncated := py_strip (finalp.take 2000)
    let last_period := py_rfind '.' truncated
    let last_space := py_rfind ' ' truncated
    let truncated2 :=
      if (2000 : Int) - 50 < last_period then truncated.take (last_period.toNat + 1)
      else if (2000 : Int) - 20 < last_space then truncated.take last_space.toNat
      else truncated
    if 2000 < truncated2.length then py_strip (truncated2.take 2000) else truncated2
  else finalp

/-- Dropping a while-matching head never lengthens a list. -/
theorem length_dropWhile_le_self (p : Char → Bool) (l : List Char) :
    (l.dropWhile p).length ≤ l.length := by
  induction l with
  | nil => simp
  | cons x xs ih =>
    rw [List.dropWhile_cons]
    by_cases hx : p x
    · simp only [hx, if_true]
      exact Nat.le_succ_of_le ih
    · simp [hx]

/-- Stripping never lengthens a list. -/
theorem py_strip_length_le (s : List Char) : (py_strip s).length ≤ s.length := by
  unfold py_strip
  rw [List.length_reverse]
  calc ((s.dropWhile is_py_space).reverse.dropWhile is_py_space).length
      ≤ (s.dropWhile is_py_space).reverse.length := length_dropWhile_le_self _ _
    _ = (s.dropWhile is_py_space).length := List.length_reverse _
    _ ≤ s.length := length_dropWhile_le_self _ _

/-- The result of `py_rfind` is below the length of the list. -/
theorem py_rfind_lt_length (ch : Char) (s : List Char) :
    py_rfind ch s < (s.length : Int) := by
  induction s with
  | nil => simp [py_rfind]
  | cons x xs ih =>
    rw [py_rfind]
    simp only [List.length_cons]
    by_cases hr : 0 ≤ py_rfind ch xs
    · rw [if_pos hr]
      push_cast
      omega
    · rw [if_neg hr]
      by_cases hx : x = ch
      · rw [if_pos hx]
        positivity
      · rw [if_neg hx]
        push_cast
        omega

/-- A non-negative `py_rfind` result points at an occurrence of the sought
character. -/
theorem py_rfind_get (ch : Char) (s : List Char) (h : 0 ≤ py_rfind ch s) :
    ∃ hlt : (py_rfind ch s).toNat < s.length,
      s.get ⟨(py_rfind ch s).toNat, hlt⟩ = ch := by
  induction s with
  | nil => simp [py_rfind] at h
  | cons x xs ih =>
    rw [py_rfind] at h ⊢
    by_cases hr : 0 ≤ py_rfind ch xs
    · rw [if_pos hr] at h ⊢
      obtain ⟨hlt, hget⟩ := ih hr
      have htn : (py_rfind ch xs + 1).toNat = (py_rfind ch xs).toNat + 1 := by omega
      refine ⟨by simp [htn, List.length_cons]; omega, ?_⟩
      simp only [htn]
      simpa using hget
    · rw [if_neg hr] at h ⊢
      by_cases hx : x = ch
      · rw [if_pos hx] at h ⊢
        exact ⟨by simp, by simpa using hx⟩
      · rw [if_neg hx] at h
        omega

/-- Unfolding of `final_system_prompt` on an over-long prompt: the final
defensive re-cut never fires because every branch is already within the
limit. -/
theorem final_system_prompt_long {s : List Char} (h : 2000 < s.length) :
    final_system_prompt (some s) =
      (if (2000 : Int) - 50 < py_rfind '.' (py_strip (s.take 2000)) then
        (py_strip (s.take 2000)).take ((py_rfind '.' (py_strip (s.take 2000))).toNat + 1)
      else if (2000 : Int) - 20 < py_rfind ' ' (py_strip (s.take 2000)) then
        (py_strip (s.take 2000)).take (py_rfind ' ' (py_strip (s.take 2000))).toNat
      else py_strip (s.take 2000)) := by
  have hne : s ≠ [] := by
    intro he
    rw [he] at h
    simp at h
  have hTle : (py_strip (s.take 2000)).length ≤ 2000 := by
    calc (py_strip (s.take 2000)).length
        ≤ (s.take 2000).length := py_strip_length_le _
      _ ≤ 2000 := by rw [List.length_take]; omega
  simp only [final_system_prompt, if_neg hne, if_pos h]
  have h2le : (if (2000 : Int) - 50 < py_rfind '.' (py_strip (s.take 2000)) then
        (py_strip (s.take 2000)).take ((py_rfind '.' (py_strip (s.take 2000))).toNat + 1)
      else if (2000 : Int) - 20 < py_rfind ' ' (py_strip (s.take 2000)) then
        (py_strip (s.take 2000)).take (py_rfind ' ' (py_strip (s.take 2000))).toNat
      else py_strip (s.take 2000)).length ≤ 2000 := by
    split_ifs
    · rw [List.length_take]
      omega
    · rw [List.length_take]
      omega
    · exact hTle
  rw [if_neg (by omega)]

/-- The last element of `take (i + 1)` is the element at position `i`. -/
theorem getLast?_take_succ (l : List Char) (i : Nat) (h : i < l.length) :
    (l.take (i + 1)).getLast? = some (l.get ⟨i, h⟩) := by
  rw [List.getLast?_eq_getElem?]
  have hlen : (l.take (i + 1)).length = i + 1 := by
    rw [List.length_take]
    omega
  rw [hlen]
  simp only [Nat.add_sub_cancel]
  rw [List.getElem?_take]
  simp only [Nat.lt_succ_self, if_pos]
  rw [List.getElem?_eq_getElem h]
  simp [List.get_eq_getElem]

/-- C9: the system-prompt text placed in the system message is always at
most 2000 characters; the default prompt is used when none is supplied; a
supplied prompt of at most 2000 characters is used unchanged; an over-long
prompt is replaced by an initial segment of its stripped 2000-character cut
(a truncation), and if a sentence end occurs after position 1950 of that
cut, the result ends with the sentence-ending period. -/
theorem system_prompt_limits (sp : Option (List Char)) :
    (final_system_prompt sp).length ≤ 2000
    ∧ (sp = none → final_system_prompt sp = DEFAULT_SYSTEM_PROMPT)
    ∧ (∀ s, sp = some s → s.length ≤ 2000 → s ≠ [] → final_system_prompt sp = s)
    ∧ (∀ s, sp = some s → 2000 < s.length →
        ∃ t, final_system_prompt sp ++ t = py_strip (s.take 2000))
    ∧ (∀ s, sp = some s → 2000 < s.length →
        (2000 : Int) - 50 < py_rfind '.' (py_strip (s.take 2000)) →
        (final_system_prompt sp).getLast? = some '.') := by
  refine ⟨?_, ?_, ?_, ?_, ?_⟩
  · cases sp with
    | none => decide
    | some s =>
      by_cases hs : s = []
      · rw [hs]
        decide
      · by_cases hlen : 2000 < s.length
        · have hTle : (py_strip (s.take 2000)).length ≤ 2000 := by
            calc (py_strip (s.take 2000)).length
                ≤ (s.take 2000).length := py_strip_length_le _
              _ ≤ 2000 := by rw [List.length_take]; omega
          rw [final_system_prompt_long hlen]
          split_ifs
          · rw [List.length_take]
            omega
          · rw [List.length_take]
            omega
          · exact hTle
        · simp only [final_system_prompt, if_neg hs, if_neg hlen]
          omega
  · intro h
    rw [h]
    decide
  · intro s hsp hle hne
    rw [hsp]
    simp only [final_system_prompt, if_neg hne]
    rw [if_neg (by omega)]
  · intro s hsp hlen
    rw [hsp, final_system_prompt_long hlen]
    split_ifs
    · exact ⟨(py_strip (s.take 2000)).drop ((py_rfind '.' (py_strip (s.take 2000))).toNat + 1),
        List.take_append_drop _ _⟩
    · exact ⟨(py_strip (s.take 2000)).drop (py_rfind ' ' (py_strip (s.take 2000))).toNat,
        List.take_append_drop _ _⟩
    · exact ⟨[], List.append_nil _⟩
  · intro s hsp hlen hper
    rw [hsp, final_system_prompt_long hlen, if_pos hper]
    have h0 : 0 ≤ py_rfind '.' (py_strip (s.take 2000)) := by omega
    obtain ⟨hlt, hget⟩ := py_rfind_get '.' (py_strip (s.take 2000)) h0
    rw [getLast?_take_succ _ _ hlt, hget]

/-- Witness instantiating `system_prompt_limits` on the absent prompt and
on a concrete short prompt. -/
theorem system_prompt_limits_witness :
    final_system_prompt none = DEFAULT_SYSTEM_PROMPT
    ∧ final_system_prompt (some ['h', 'i']) = ['h', 'i'] :=
  ⟨(system_prompt_limits none).2.1 rfl,
    (system_prompt_limits (some ['h', 'i'])).2.2.1 ['h', 'i'] rfl (by decide) (by decide)⟩
